import Mathlib

/-!
Shallow embedding of the ball-tracking pipeline:
  * src/perspective_mapper.py — `PerspectiveMapper`: a fixed projective
    transform from a source quadrilateral to a destination rectangle,
    applied to single points by `transform_point`.
  * src/ball_detector.py — `detect_ball`: HSV red masking, morphological
    opening, contour filtering by area and circularity, centroid extraction.
  * src/main_tracker.py — the per-frame driver: stabilize, detect,
    transform, push into two bounded trajectory deques.

Machine floating point is modelled by exact rational arithmetic (`ℚ`);
`math.pi` is modelled by the IEEE-754 double value the Python source reads.
External OpenCV calls whose pixel-level geometry the claims do not depend on
(Gaussian blur, BGR-to-HSV conversion, contour extraction, and the
per-contour measurements: area, minimal enclosing circle, moments) are
fields of an `Oracle` record; theorems quantify over every oracle, adding
the documented behaviour of the library call where a claim needs it.
-/

/-! Section: perspective mapper (src/perspective_mapper.py) -/

/-- Dot product of two rational vectors. -/
def dotQ (a b : List ℚ) : ℚ := (List.zipWith (· * ·) a b).foldl (· + ·) 0

/-- One elimination step: subtract the right multiple of the pivot row `p`
from row `r`, dropping the leading column. -/
def reduceRow (p r : List ℚ) : List ℚ :=
  List.zipWith (fun a b => b - (r.headD 0 / p.headD 1) * a) p.tail r.tail

/-- Gaussian elimination with back substitution on an augmented system
(each row lists the coefficients followed by the right-hand side), solving
for `n` unknowns.  This is the exact-arithmetic counterpart of the linear
solve inside `cv2.getPerspectiveTransform`. -/
def gauss : ℕ → List (List ℚ) → List ℚ
  | 0, _ => []
  | n + 1, rows =>
    match rows.filter (fun r => decide (r.headD 0 ≠ 0)) with
    | [] => List.replicate (n + 1) 0
    | p :: rest =>
      let others :=
        (rows.filter (fun r => decide (r.headD 0 = 0))).map List.tail
          ++ rest.map (reduceRow p)
      let xs := gauss n others
      ((p.getLastD 0 - dotQ (p.tail.dropLast) xs) / p.headD 1) :: xs

/-- Model of `cv2.getPerspectiveTransform`: the 3×3 homography sending the
four source points onto the four destination points, obtained by solving
the standard 8×8 linear system with the bottom-right entry fixed to 1. -/
def getPerspectiveTransform (src dst : List (ℚ × ℚ)) : List (List ℚ) :=
  let rows :=
    ((List.zip src dst).map (fun q =>
      [[q.1.1, q.1.2, 1, 0, 0, 0, -q.1.1 * q.2.1, -q.1.2 * q.2.1, q.2.1],
       [0, 0, 0, q.1.1, q.1.2, 1, -q.1.1 * q.2.2, -q.1.2 * q.2.2, q.2.2]])).flatten
  match gauss 8 rows with
  | [a, b, c, d, e, f, g, k] => [[a, b, c], [d, e, f], [g, k, 1]]
  | _ => [[1, 0, 0], [0, 1, 0], [0, 0, 1]]

/-- Entry `(i, j)` of a matrix stored as a list of rows. -/
def mGet (M : List (List ℚ)) (i j : ℕ) : ℚ := (M.getD i []).getD j 0

/-- The field `PerspectiveMapper.pts_src`: the four hand-tuned source
quadrilateral corners (top-left, top-right, bottom-right, bottom-left). -/
def pts_src : List (ℚ × ℚ) := [(220, 100), (420, 100), (500, 590), (140, 590)]

/-- The constant `WARPED_WIDTH` from the source. -/
def WARPED_WIDTH : ℚ := 400

/-- The constant `WARPED_HEIGHT` from the source. -/
def WARPED_HEIGHT : ℚ := 900

/-- The field `PerspectiveMapper.pts_dst`: corners of the destination
rectangle. -/
def pts_dst : List (ℚ × ℚ) :=
  [(0, 0), (WARPED_WIDTH - 1, 0),
   (WARPED_WIDTH - 1, WARPED_HEIGHT - 1), (0, WARPED_HEIGHT - 1)]

/-- The field `self.M`: the precomputed transformation matrix of the
mapper. -/
def mapperM : List (List ℚ) := getPerspectiveTransform pts_src pts_dst

/-- Python `int(...)` applied to a real value: truncation toward zero. -/
def pyInt (q : ℚ) : ℤ := Int.tdiv q.num (q.den : ℤ)

/-- Model of `cv2.perspectiveTransform` on a single point: homogeneous
application of the matrix followed by the perspective divide; when the
homogeneous scale is zero OpenCV outputs the zero point instead of
dividing. -/
def perspectiveTransformPt (M : List (List ℚ)) (p : ℚ × ℚ) : ℚ × ℚ :=
  let w := mGet M 2 0 * p.1 + mGet M 2 1 * p.2 + mGet M 2 2
  if w ≠ 0 then
    ((mGet M 0 0 * p.1 + mGet M 0 1 * p.2 + mGet M 0 2) / w,
     (mGet M 1 0 * p.1 + mGet M 1 1 * p.2 + mGet M 1 2) / w)
  else (0, 0)

/-- The method `PerspectiveMapper.transform_point`: `None` maps to `None`;
otherwise the homography is applied and each coordinate is truncated with
`int`. -/
def transform_point (M : List (List ℚ)) : Option (ℤ × ℤ) → Option (ℤ × ℤ)
  | none => none
  | some p =>
    let d := perspectiveTransformPt M ((p.1 : ℚ), (p.2 : ℚ))
    some (pyInt d.1, pyInt d.2)

/-! Section: trajectory buffers (src/main_tracker.py, deque with maxlen) -/

/-- A Python `collections.deque` with a `maxlen`: newest element first. -/
structure BoundedDeque (α : Type) where
  cap : ℕ
  data : List α

/-- The method `deque.appendleft`: prepend, evicting from the right at
capacity. -/
def appendleft {α : Type} (d : BoundedDeque α) (x : α) : BoundedDeque α :=
  ⟨d.cap, (x :: d.data).take d.cap⟩

/-- Push a whole list of entries in order, oldest first. -/
def pushAll {α : Type} (d : BoundedDeque α) (xs : List α) : BoundedDeque α :=
  xs.foldl appendleft d

/-- A freshly initialised trajectory buffer, `deque(maxlen=cap)`
(`pts_original` and `pts_warped` in the driver). -/
def emptyDeque (α : Type) (cap : ℕ) : BoundedDeque α := ⟨cap, []⟩

/-! Section: ball detector (src/ball_detector.py) -/

/-- One pixel of an image in hue-saturation-value space (8-bit channels). -/
structure HSVPix where
  hue : ℕ
  sat : ℕ
  val : ℕ

/-- A rectangular image: `ht` rows of `wd` pixels; `px r c` is the pixel in
row `r`, column `c` (only rows `< ht` and columns `< wd` are meaningful). -/
structure Grid (α : Type) where
  ht : ℕ
  wd : ℕ
  px : ℕ → ℕ → α

/-- A 3-channel BGR frame. -/
abbrev FrameImg : Type := Grid (ℕ × ℕ × ℕ)

/-- A single-channel 8-bit mask. -/
abbrev MaskImg : Type := Grid ℕ

/-- An OpenCV contour: a list of `(x, y)` integer points. -/
abbrev Contour : Type := List (ℤ × ℤ)

/-- Lower HSV bound of the first red range, `redLower1` in the source. -/
def redLower1 : ℕ × ℕ × ℕ := (0, 100, 50)

/-- Upper HSV bound of the first red range, `redUpper1` in the source. -/
def redUpper1 : ℕ × ℕ × ℕ := (10, 255, 255)

/-- Lower HSV bound of the second red range, `redLower2` in the source. -/
def redLower2 : ℕ × ℕ × ℕ := (170, 100, 50)

/-- Upper HSV bound of the second red range, `redUpper2` in the source. -/
def redUpper2 : ℕ × ℕ × ℕ := (179, 255, 255)

/-- Model of `cv2.inRange` on one HSV pixel: 255 when every channel lies
inside the closed bounds, else 0. -/
def inRange1 (lo hi : ℕ × ℕ × ℕ) (p : HSVPix) : ℕ :=
  if lo.1 ≤ p.hue ∧ p.hue ≤ hi.1 ∧ lo.2.1 ≤ p.sat ∧ p.sat ≤ hi.2.1 ∧
      lo.2.2 ≤ p.val ∧ p.val ≤ hi.2.2 then 255 else 0

/-- Model of `cv2.inRange` on a whole HSV image. -/
def inRange (lo hi : ℕ × ℕ × ℕ) (g : Grid HSVPix) : MaskImg :=
  ⟨g.ht, g.wd, fun r c => inRange1 lo hi (g.px r c)⟩

/-- Model of `cv2.bitwise_or` of two equally sized masks. -/
def bitwise_or (a b : MaskImg) : MaskImg :=
  ⟨a.ht, a.wd, fun r c => Nat.lor (a.px r c) (b.px r c)⟩

/-- Read a mask at signed coordinates, with `dflt` outside the image
(the morphology border value). -/
def getWith (m : MaskImg) (dflt : ℕ) (r c : ℤ) : ℕ :=
  if 0 ≤ r ∧ r < (m.ht : ℤ) ∧ 0 ≤ c ∧ c < (m.wd : ℤ) then
    m.px r.toNat c.toNat
  else dflt

/-- Offsets covered by the 5×5 all-ones structuring element of the source
(anchored at its center). -/
def offs : List ℤ := [-2, -1, 0, 1, 2]

/-- The 5×5 neighbourhood of `(r, c)`. -/
def nbhd (r c : ℕ) : List (ℤ × ℤ) :=
  (offs.map (fun dr => offs.map (fun dc => ((r : ℤ) + dr, (c : ℤ) + dc)))).flatten

/-- Model of `cv2.erode` with the 5×5 kernel, one iteration: the minimum
over the neighbourhood, out-of-image samples reading as the maximal value
(OpenCV's default border for erosion). -/
def erodeOnce (m : MaskImg) : MaskImg :=
  ⟨m.ht, m.wd, fun r c =>
    ((nbhd r c).map (fun q => getWith m 255 q.1 q.2)).foldl Nat.min 255⟩

/-- Model of `cv2.dilate` with the 5×5 kernel, one iteration: the maximum
over the neighbourhood, out-of-image samples reading as the minimal
value. -/
def dilateOnce (m : MaskImg) : MaskImg :=
  ⟨m.ht, m.wd, fun r c =>
    ((nbhd r c).map (fun q => getWith m 0 q.1 q.2)).foldl Nat.max 0⟩

/-- The constant `math.pi`: the IEEE-754 double value Python's `math.pi`
denotes, as an exact rational. -/
def mathPi : ℚ := 884279719003555 / 281474976710656

/-- The external OpenCV calls `detect_ball` makes, as a record of opaquely
modelled library functions: blur, colour conversion, contour extraction,
and the per-contour geometric measurements.  `moments` returns
`(m00, m10, m01)`. -/
structure Oracle where
  gaussianBlur : FrameImg → FrameImg
  cvtColorHSV : FrameImg → Grid HSVPix
  findContours : MaskImg → List Contour
  contourArea : Contour → ℚ
  minEnclosingCircle : Contour → (ℚ × ℚ) × ℚ
  moments : Contour → ℚ × ℚ × ℚ

/-- The documented behaviour of `cv2.findContours` the proofs rely on:
every returned contour has at least one point, lying inside the image on a
nonzero pixel. -/
def FindContoursSpec (fc : MaskImg → List Contour) : Prop :=
  ∀ (m : MaskImg) (c : Contour), c ∈ fc m →
    ∃ q ∈ c, 0 ≤ q.1 ∧ q.1 < (m.wd : ℤ) ∧ 0 ≤ q.2 ∧ q.2 < (m.ht : ℤ) ∧
      m.px q.2.toNat q.1.toNat ≠ 0

/-- The cleaned binary mask of `detect_ball`: red in-range test on the
blurred HSV image, two-range OR, then erosion ×2 and dilation ×2. -/
def cleanMask (o : Oracle) (frame : FrameImg) : MaskImg :=
  let blurred := o.gaussianBlur frame
  let hsv := o.cvtColorHSV blurred
  let mask1 := inRange redLower1 redUpper1 hsv
  let mask2 := inRange redLower2 redUpper2 hsv
  let mask := bitwise_or mask1 mask2
  dilateOnce (dilateOnce (erodeOnce (erodeOnce mask)))

/-- One pass of the contour-filtering loop body: the state is
`(best_c, max_area)`, updated exactly as lines 43–62 of the source do. -/
def stepSel (o : Oracle) (acc : Option Contour × ℚ) (c : Contour) :
    Option Contour × ℚ :=
  let area := o.contourArea c
  if area < 100 then acc
  else
    let radius := (o.minEnclosingCircle c).2
    if radius = 0 then acc
    else
      let circle_area := mathPi * radius ^ 2
      if area / circle_area > 7 / 10 then
        if area > acc.2 ∧ area < 8000 then (some c, area) else acc
      else acc

/-- The whole filtering loop: fold `stepSel` over the contour list starting
from `best_c = None`, `max_area = 0`; the result is the final `best_c`. -/
def selectBest (o : Oracle) (cnts : List Contour) : Option Contour :=
  (cnts.foldl (stepSel o) (none, 0)).1

/-- The function `detect_ball`: returns `(center, radius, mask)`, with
`center = None` and `radius = 0` when no qualifying contour (or a zero
`m00`) is found. -/
def detect_ball (o : Oracle) (frame : FrameImg) :
    Option (ℤ × ℤ) × ℚ × MaskImg :=
  let mask := cleanMask o frame
  let cnts := o.findContours mask
  match selectBest o cnts with
  | some best_c =>
    let radius := (o.minEnclosingCircle best_c).2
    let M := o.moments best_c
    if M.1 ≠ 0 then
      (some (pyInt (M.2.1 / M.1), pyInt (M.2.2 / M.1)), radius, mask)
    else (none, 0, mask)
  | none => (none, 0, mask)

/-- A mask whose every in-bounds pixel is zero. -/
def AllZero (m : MaskImg) : Prop :=
  ∀ r c, r < m.ht → c < m.wd → m.px r c = 0

/-- A pixel satisfying one of the two red HSV ranges of the detector. -/
def InRedRange (p : HSVPix) : Prop :=
  (p.hue ≤ 10 ∧ 100 ≤ p.sat ∧ p.sat ≤ 255 ∧ 50 ≤ p.val ∧ p.val ≤ 255) ∨
  (170 ≤ p.hue ∧ p.hue ≤ 179 ∧ 100 ≤ p.sat ∧ p.sat ≤ 255 ∧
    50 ≤ p.val ∧ p.val ≤ 255)

/-- The four constraints a contour must meet to be eligible in the
filtering loop: area at least the noise floor, nonzero enclosing radius,
circularity above 0.7, and area below the clothing bound. -/
def Qualifies (o : Oracle) (c : Contour) : Prop :=
  100 ≤ o.contourArea c ∧ (o.minEnclosingCircle c).2 ≠ 0 ∧
  o.contourArea c / (mathPi * (o.minEnclosingCircle c).2 ^ 2) > 7 / 10 ∧
  o.contourArea c < 8000

/-! Section: driver per-frame step (src/main_tracker.py) -/

/-- The carried state of the main loop: the two trajectory deques. -/
structure TrackState where
  pts_original : BoundedDeque (Option (ℤ × ℤ))
  pts_warped : BoundedDeque (Option (ℤ × ℤ))

/-- What a processed (non-skipped) frame produces besides the new state:
the detection, its transform into rectified space, the radius and the mask
used for rendering. -/
structure FrameResult where
  center : Option (ℤ × ℤ)
  center_warped : Option (ℤ × ℤ)
  radius : ℚ
  mask : MaskImg

/-- One iteration of the main loop after the resize, taking the
stabilizer's output as input: `none` (not warmed up) skips the frame
entirely (the `continue` on line 74); otherwise detect on the stabilized
frame, transform a found center, and push into both trajectory deques. -/
def processFrame (o : Oracle) (M : List (List ℚ)) (stabilized : Option FrameImg)
    (st : TrackState) : TrackState × Option FrameResult :=
  match stabilized with
  | none => (st, none)
  | some frame_stabilized =>
    let det := detect_ball o frame_stabilized
    let center := det.1
    let center_warped :=
      match center with
      | some c => transform_point M (some c)
      | none => none
    (⟨appendleft st.pts_original center, appendleft st.pts_warped center_warped⟩,
     some ⟨center, center_warped, det.2.1, det.2.2⟩)

/-! Section: concrete fixtures used to instantiate hypotheses -/

/-- A concrete contour used to exercise the detector. -/
def testContour : Contour := [(1, 1)]

/-- A concrete empty frame. -/
def testFrame : FrameImg := ⟨0, 0, fun _ _ => (0, 0, 0)⟩

/-- A concrete oracle whose contour extraction returns one qualifying
contour: area 200, enclosing radius 9 (circularity about 0.786), moments
`(2, 10, 4)`. -/
def testOracle : Oracle where
  gaussianBlur := id
  cvtColorHSV := fun _ => ⟨0, 0, fun _ _ => ⟨0, 0, 0⟩⟩
  findContours := fun _ => [testContour]
  contourArea := fun _ => 200
  minEnclosingCircle := fun _ => ((1, 1), 9)
  moments := fun _ => (2, 10, 4)

/-- A concrete oracle that extracts no contours at all. -/
def emptyOracle : Oracle where
  gaussianBlur := id
  cvtColorHSV := fun _ => ⟨0, 0, fun _ _ => ⟨0, 0, 0⟩⟩
  findContours := fun _ => []
  contourArea := fun _ => 0
  minEnclosingCircle := fun _ => ((0, 0), 0)
  moments := fun _ => (0, 0, 0)

/-! Section: helper lemmas on the deque model -/

theorem take_append_take {α : Type} (n : ℕ) (a b : List α) :
    (a ++ b.take n).take n = (a ++ b).take n := by
  rw [List.take_append_eq_append_take, List.take_append_eq_append_take, List.take_take]
  congr 2
  omega

theorem pushAll_data {α : Type} (xs : List α) : ∀ (cap : ℕ) (l : List α),
    l.length ≤ cap → (pushAll ⟨cap, l⟩ xs).data = (xs.reverse ++ l).take cap := by
  induction xs with
  | nil =>
    intro cap l h
    simp [pushAll, List.take_of_length_le h]
  | cons x xs ih =>
    intro cap l h
    have step : pushAll ⟨cap, l⟩ (x :: xs) = pushAll ⟨cap, (x :: l).take cap⟩ xs := rfl
    rw [step, ih cap ((x :: l).take cap) (by simp)]
    rw [take_append_take, List.reverse_cons, List.append_assoc]
    rfl

/-! Section: helper lemmas on the contour-selection fold -/

theorem stepSel_cases (o : Oracle) (acc : Option Contour × ℚ) (c : Contour) :
    stepSel o acc c = acc ∨
      (Qualifies o c ∧ acc.2 < o.contourArea c ∧
        stepSel o acc c = (some c, o.contourArea c)) := by
  simp only [stepSel]
  split_ifs with h1 h2 h3 h4
  · exact Or.inl rfl
  · exact Or.inl rfl
  · exact Or.inr ⟨⟨not_lt.mp h1, h2, h3, h4.2⟩, h4.1, rfl⟩
  · exact Or.inl rfl
  · exact Or.inl rfl

theorem stepSel_snd_le (o : Oracle) (acc : Option Contour × ℚ) (c : Contour) :
    acc.2 ≤ (stepSel o acc c).2 := by
  rcases stepSel_cases o acc c with h | ⟨_, hlt, h⟩
  · rw [h]
  · rw [h]; exact le_of_lt hlt

theorem stepSel_qual_bound (o : Oracle) (acc : Option Contour × ℚ) (c : Contour)
    (hq : Qualifies o c) (he : stepSel o acc c = acc) :
    o.contourArea c ≤ acc.2 := by
  by_contra hgt
  push_neg at hgt
  obtain ⟨ha, hr, hc3, ha8⟩ := hq
  simp only [stepSel] at he
  rw [if_neg (not_lt.mpr ha), if_neg hr, if_pos hc3, if_pos ⟨hgt, ha8⟩] at he
  have : o.contourArea c = acc.2 := congrArg Prod.snd he
  exact absurd this (ne_of_gt hgt)

theorem foldl_stepSel_spec (o : Oracle) (cnts : List Contour) :
    ∀ acc : Option Contour × ℚ,
      (cnts.foldl (stepSel o) acc = acc ∨
        ∃ b ∈ cnts, (cnts.foldl (stepSel o) acc).1 = some b ∧ Qualifies o b ∧
          (cnts.foldl (stepSel o) acc).2 = o.contourArea b) ∧
      acc.2 ≤ (cnts.foldl (stepSel o) acc).2 ∧
      ∀ c ∈ cnts, Qualifies o c → o.contourArea c ≤ (cnts.foldl (stepSel o) acc).2 := by
  induction cnts with
  | nil => exact fun acc => ⟨Or.inl rfl, le_refl _, by simp⟩
  | cons c rest ih =>
    intro acc
    obtain ⟨ihd, ihm, ihq⟩ := ih (stepSel o acc c)
    have hfold : (c :: rest).foldl (stepSel o) acc
        = rest.foldl (stepSel o) (stepSel o acc c) := rfl
    refine ⟨?_, ?_, ?_⟩
    · rcases ihd with hres | ⟨b, hb, h1, h2, h3⟩
      · rcases stepSel_cases o acc c with hs | ⟨hq, _, hs⟩
        · exact Or.inl (by rw [hfold, hres, hs])
        · refine Or.inr ⟨c, List.mem_cons_self c rest, ?_, hq, ?_⟩
          · rw [hfold, hres, hs]
          · rw [hfold, hres, hs]
      · exact Or.inr ⟨b, List.mem_cons_of_mem c hb,
          by rw [hfold]; exact h1, h2, by rw [hfold]; exact h3⟩
    · rw [hfold]; exact le_trans (stepSel_snd_le o acc c) ihm
    · intro c' hc' hq'
      rcases List.mem_cons.mp hc' with he | hmem
      · subst he
        rcases stepSel_cases o acc c' with hs | ⟨_, _, hs⟩
        · have h1 : o.contourArea c' ≤ acc.2 := stepSel_qual_bound o acc c' hq' hs
          have h2 : acc.2 = (stepSel o acc c').2 := by rw [hs]
          rw [hfold]; exact le_trans (h1.trans (le_of_eq h2)) ihm
        · have h2 : (stepSel o acc c').2 = o.contourArea c' := by rw [hs]
          rw [hfold]; exact le_trans (le_of_eq h2.symm) ihm
      · rw [hfold]; exact ihq c' hmem hq'

theorem selectBest_spec (o : Oracle) (cnts : List Contour) (b : Contour)
    (hsel : selectBest o cnts = some b) :
    b ∈ cnts ∧ Qualifies o b ∧
      ∀ c ∈ cnts, Qualifies o c → o.contourArea c ≤ o.contourArea b := by
  obtain ⟨hd, _, hq⟩ := foldl_stepSel_spec o cnts (none, 0)
  unfold selectBest at hsel
  rcases hd with hres | ⟨b', hb', h1, h2, h3⟩
  · rw [hres] at hsel; exact absurd hsel (by simp)
  · have hbb : b' = b := by rw [h1] at hsel; exact Option.some.inj hsel
    subst hbb
    exact ⟨hb', h2, fun c hc hqc => by rw [← h3]; exact hq c hc hqc⟩

theorem detect_ball_mask_eq (o : Oracle) (f : FrameImg) :
    (detect_ball o f).2.2 = cleanMask o f := by
  rcases hsel : selectBest o (o.findContours (cleanMask o f)) with _ | b
  · simp [detect_ball, hsel]
  · rcases eq_or_ne (o.moments b).1 0 with hm | hm <;>
      simp [detect_ball, hsel, hm]

/-! Section: helper lemmas on the mask pipeline -/

theorem foldl_min_le_init (l : List ℕ) : ∀ a : ℕ, l.foldl Nat.min a ≤ a := by
  induction l with
  | nil => intro a; exact le_refl a
  | cons x xs ih => intro a; exact le_trans (ih (Nat.min a x)) (Nat.min_le_left a x)

theorem foldl_min_le_mem {x : ℕ} : ∀ l : List ℕ, x ∈ l → ∀ a : ℕ, l.foldl Nat.min a ≤ x := by
  intro l
  induction l with
  | nil => intro h; exact absurd h (List.not_mem_nil x)
  | cons y ys ih =>
    intro hx a
    rcases List.mem_cons.mp hx with he | hm
    · subst he
      exact le_trans (foldl_min_le_init ys (Nat.min a x)) (Nat.min_le_right a x)
    · exact ih hm (Nat.min a y)

theorem foldl_max_zero : ∀ l : List ℕ, (∀ x ∈ l, x = 0) → l.foldl Nat.max 0 = 0 := by
  intro l
  induction l with
  | nil => intro _; rfl
  | cons y ys ih =>
    intro h
    have hy : y = 0 := h y (List.mem_cons_self y ys)
    subst hy
    exact ih (fun x hx => h x (List.mem_cons_of_mem 0 hx))

theorem self_mem_nbhd (r c : ℕ) : ((r : ℤ), (c : ℤ)) ∈ nbhd r c := by
  have h0 : (0 : ℤ) ∈ offs := by simp [offs]
  simp only [nbhd, List.mem_flatten, List.mem_map]
  exact ⟨offs.map (fun dc => ((r : ℤ) + 0, (c : ℤ) + dc)), ⟨0, h0, rfl⟩,
    List.mem_map.mpr ⟨0, h0, by simp⟩⟩

theorem erodeOnce_allZero {m : MaskImg} (h : AllZero m) : AllZero (erodeOnce m) := by
  intro r c hr hc
  simp only [erodeOnce] at hr hc ⊢
  have hval : getWith m 255 (r : ℤ) (c : ℤ) = 0 := by
    simp only [getWith]
    rw [if_pos ⟨Int.natCast_nonneg r, by exact_mod_cast hr,
      Int.natCast_nonneg c, by exact_mod_cast hc⟩]
    simpa using h r c hr hc
  have hmem : getWith m 255 (r : ℤ) (c : ℤ)
      ∈ (nbhd r c).map (fun q => getWith m 255 q.1 q.2) :=
    List.mem_map_of_mem (fun q => getWith m 255 q.1 q.2) (self_mem_nbhd r c)
  exact Nat.le_zero.mp (le_trans (foldl_min_le_mem _ hmem 255) (le_of_eq hval))

theorem dilateOnce_allZero {m : MaskImg} (h : AllZero m) : AllZero (dilateOnce m) := by
  intro r c hr hc
  simp only [dilateOnce] at hr hc ⊢
  apply foldl_max_zero
  intro x hx
  obtain ⟨q, _, hq⟩ := List.mem_map.mp hx
  subst hq
  simp only [getWith]
  split_ifs with hb
  · exact h q.1.toNat q.2.toNat (by omega) (by omega)
  · rfl

theorem inRange1_red_eq_zero {p : HSVPix} (h : ¬ InRedRange p) :
    inRange1 redLower1 redUpper1 p = 0 ∧ inRange1 redLower2 redUpper2 p = 0 := by
  rcases not_or.mp h with ⟨h1, h2⟩
  simp only [inRange1, redLower1, redUpper1, redLower2, redUpper2, InRedRange] at *
  refine ⟨if_neg ?_, if_neg ?_⟩ <;> intro hc <;> [exact h1 (by tauto); exact h2 (by tauto)]

theorem cleanMask_allZero (o : Oracle) (f : FrameImg)
    (hred : ∀ r c, r < (o.cvtColorHSV (o.gaussianBlur f)).ht →
      c < (o.cvtColorHSV (o.gaussianBlur f)).wd →
      ¬ InRedRange ((o.cvtColorHSV (o.gaussianBlur f)).px r c)) :
    AllZero (cleanMask o f) := by
  have hor : AllZero (bitwise_or
      (inRange redLower1 redUpper1 (o.cvtColorHSV (o.gaussianBlur f)))
      (inRange redLower2 redUpper2 (o.cvtColorHSV (o.gaussianBlur f)))) := by
    intro r c hr hc
    simp only [bitwise_or, inRange] at hr hc ⊢
    obtain ⟨hz1, hz2⟩ := inRange1_red_eq_zero (hred r c hr hc)
    rw [hz1, hz2]
    decide
  exact dilateOnce_allZero (dilateOnce_allZero (erodeOnce_allZero (erodeOnce_allZero hor)))

/-! Section: claim theorems -/

set_option maxRecDepth 8000 in
/-- C1: applying `transform_point` with the precomputed matrix to each of
the four configured source quadrilateral corners ([220,100], [420,100],
[500,590], [140,590]) reproduces the corresponding destination rectangle
corner ([0,0], [399,0], [399,899], [0,899]) exactly (so in particular
within rounding); in particular `transform_point([220,100]) = [0,0]`. -/
theorem transform_point_corner_roundtrip :
    transform_point mapperM (some (220, 100)) = some (0, 0) ∧
    transform_point mapperM (some (420, 100)) = some (399, 0) ∧
    transform_point mapperM (some (500, 590)) = some (399, 899) ∧
    transform_point mapperM (some (140, 590)) = some (0, 899) := by
  refine ⟨?_, ?_, ?_, ?_⟩ <;>
    norm_num [transform_point, mapperM, getPerspectiveTransform, pts_src, pts_dst,
      WARPED_WIDTH, WARPED_HEIGHT, gauss, reduceRow, dotQ, mGet,
      perspectiveTransformPt, pyInt]

/-- C5: the trajectory buffers (as created on lines 49–50 and pushed on
lines 113–115 of the driver) never hold more than their capacity; after
pushing more than `cap` entries into a fresh buffer, exactly the most
recent `cap` entries remain, most-recent-first, the oldest having been
evicted. -/
theorem trajectory_buffer_eviction (cap : ℕ) (xs : List (Option (ℤ × ℤ)))
    (h : cap < xs.length) :
    (pushAll (emptyDeque (Option (ℤ × ℤ)) cap) xs).data = xs.reverse.take cap ∧
    ((pushAll (emptyDeque (Option (ℤ × ℤ)) cap) xs).data).length = cap ∧
    ∀ (d : BoundedDeque (Option (ℤ × ℤ))) (ys : List (Option (ℤ × ℤ))),
      d.data.length ≤ d.cap → ((pushAll d ys).data).length ≤ d.cap := by
  have he : emptyDeque (Option (ℤ × ℤ)) cap = ⟨cap, []⟩ := rfl
  have h1 : (pushAll (emptyDeque (Option (ℤ × ℤ)) cap) xs).data = xs.reverse.take cap := by
    rw [he, pushAll_data xs cap [] (by simp), List.append_nil]
  refine ⟨h1, ?_, ?_⟩
  · rw [h1, List.length_take, List.length_reverse]
    omega
  · intro d ys hd
    obtain ⟨dc, dl⟩ := d
    dsimp only at hd ⊢
    rw [pushAll_data ys dc dl hd, List.length_take]
    omega

/-- C5 witness: capacity 1, two pushes; only the most recent entry
remains. -/
theorem trajectory_buffer_eviction_witness :
    (pushAll (emptyDeque (Option (ℤ × ℤ)) 1) [some (1, 2), none]).data =
      ([some (1, 2), none] : List (Option (ℤ × ℤ))).reverse.take 1 ∧
    ((pushAll (emptyDeque (Option (ℤ × ℤ)) 1) [some (1, 2), none]).data).length = 1 ∧
    ∀ (d : BoundedDeque (Option (ℤ × ℤ))) (ys : List (Option (ℤ × ℤ))),
      d.data.length ≤ d.cap → ((pushAll d ys).data).length ≤ d.cap :=
  trajectory_buffer_eviction 1 [some (1, 2), none] (by decide)

/-- C6: `transform_point` returns an absent point exactly on absent input:
`None` yields `None`, and every concrete 2D point yields some transformed
point (the forward homography applied, with no bounds clamping and no
failure case). -/
theorem transform_point_absent_iff_absent (M : List (List ℚ)) :
    transform_point M none = none ∧
    ∀ p : ℤ × ℤ, ∃ q : ℤ × ℤ, transform_point M (some p) = some q :=
  ⟨rfl, fun _ => ⟨_, rfl⟩⟩

/-- C7: `detect_ball` is a total function that returns the cleaned binary
mask in every case, and when no center is returned the radius returned is
exactly 0 — absence of a qualifying contour is an ordinary return value,
never an error. -/
theorem detect_ball_always_returns_mask (o : Oracle) (f : FrameImg) :
    (detect_ball o f).2.2 = cleanMask o f ∧
    ((detect_ball o f).1 = none → (detect_ball o f).2.1 = 0) := by
  refine ⟨detect_ball_mask_eq o f, ?_⟩
  rcases hsel : selectBest o (o.findContours (cleanMask o f)) with _ | b
  · simp [detect_ball, hsel]
  · rcases eq_or_ne (o.moments b).1 0 with hm | hm <;> simp [detect_ball, hsel, hm]

/-- C8: when the stabilizer signals not-ready (returns `None`), the driver
skips the frame entirely: the state (both trajectory buffers) is returned
unchanged and no detection, transform or render output is produced. -/
theorem stabilizer_not_ready_skips_frame (o : Oracle) (M : List (List ℚ))
    (st : TrackState) :
    processFrame o M none st = (st, none) := rfl

/-- C2: `detect_ball` returns a non-absent center only if the selected
contour is one of the extracted contours satisfying all four constraints
(area at least 100, nonzero enclosing radius, circularity above 0.7, area
below 8000) and has maximal area among all such contours; a near-circular
blob of area at least 8000 and an elongated region failing the circularity
test are therefore both rejected. -/
theorem detect_ball_center_implies_max_qualifying (o : Oracle) (f : FrameImg)
    (ctr : ℤ × ℤ) (h : (detect_ball o f).1 = some ctr) :
    ∃ c, selectBest o (o.findContours (cleanMask o f)) = some c ∧
      c ∈ o.findContours (cleanMask o f) ∧ Qualifies o c ∧
      ∀ c' ∈ o.findContours (cleanMask o f), Qualifies o c' →
        o.contourArea c' ≤ o.contourArea c := by
  rcases hsel : selectBest o (o.findContours (cleanMask o f)) with _ | b
  · simp [detect_ball, hsel] at h
  · obtain ⟨hmem, hq, hmax⟩ := selectBest_spec o _ b hsel
    exact ⟨b, rfl, hmem, hq, hmax⟩

/-- C2 witness: a concrete oracle extracting one qualifying contour makes
`detect_ball` return a center, and the selected contour is the maximal
qualifying one. -/
theorem detect_ball_center_implies_max_qualifying_witness :
    ∃ c, selectBest testOracle (testOracle.findContours (cleanMask testOracle testFrame))
        = some c ∧
      c ∈ testOracle.findContours (cleanMask testOracle testFrame) ∧
      Qualifies testOracle c ∧
      ∀ c' ∈ testOracle.findContours (cleanMask testOracle testFrame),
        Qualifies testOracle c' → testOracle.contourArea c' ≤ testOracle.contourArea c :=
  detect_ball_center_implies_max_qualifying testOracle testFrame (5, 2) (by
    norm_num [detect_ball, selectBest, stepSel, testOracle, testContour, mathPi, pyInt])

/-- C3: on a frame whose blurred HSV image has no pixel in either red
range, `detect_ball` returns an absent center, a radius of zero, and an
all-zero mask. -/
theorem detect_ball_no_red_pixels (o : Oracle) (f : FrameImg)
    (hfc : FindContoursSpec o.findContours)
    (hred : ∀ r c, r < (o.cvtColorHSV (o.gaussianBlur f)).ht →
      c < (o.cvtColorHSV (o.gaussianBlur f)).wd →
      ¬ InRedRange ((o.cvtColorHSV (o.gaussianBlur f)).px r c)) :
    (detect_ball o f).1 = none ∧ (detect_ball o f).2.1 = 0 ∧
      AllZero (detect_ball o f).2.2 := by
  have hmask : AllZero (cleanMask o f) := cleanMask_allZero o f hred
  have hcnts : o.findContours (cleanMask o f) = [] := by
    rcases hfc2 : o.findContours (cleanMask o f) with _ | ⟨c, rest⟩
    · rfl
    · exfalso
      obtain ⟨q, _, hx0, hxw, hy0, hyh, hnz⟩ := hfc (cleanMask o f) c
        (by rw [hfc2]; exact List.mem_cons_self c rest)
      exact hnz (hmask q.2.toNat q.1.toNat (by omega) (by omega))
  refine ⟨?_, ?_, ?_⟩
  · simp [detect_ball, hcnts, selectBest]
  · simp [detect_ball, hcnts, selectBest]
  · rw [detect_ball_mask_eq]
    exact hmask

/-- C3 witness: the contour-free oracle on the empty frame. -/
theorem detect_ball_no_red_pixels_witness :
    (detect_ball emptyOracle testFrame).1 = none ∧
    (detect_ball emptyOracle testFrame).2.1 = 0 ∧
    AllZero (detect_ball emptyOracle testFrame).2.2 :=
  detect_ball_no_red_pixels emptyOracle testFrame
    (by unfold FindContoursSpec; intro m c hc; simp [emptyOracle] at hc)
    (by intro r c hr _; simp [emptyOracle] at hr)

/-- C4: whenever a best contour is selected, `detect_ball` returns the
integer-truncated first-moment centroid `(m10/m00, m01/m00)` of that
contour together with its minimal-enclosing-circle radius; when the
contour's zeroth moment `m00` is zero it reports no detection (absent
center, zero radius) instead. -/
theorem detect_ball_centroid_and_radius (o : Oracle) (f : FrameImg) (c : Contour)
    (hsel : selectBest o (o.findContours (cleanMask o f)) = some c) :
    ((o.moments c).1 ≠ 0 →
      detect_ball o f =
        (some (pyInt ((o.moments c).2.1 / (o.moments c).1),
               pyInt ((o.moments c).2.2 / (o.moments c).1)),
         (o.minEnclosingCircle c).2, cleanMask o f)) ∧
    ((o.moments c).1 = 0 →
      (detect_ball o f).1 = none ∧ (detect_ball o f).2.1 = 0) := by
  constructor
  · intro hm
    simp [detect_ball, hsel, hm]
  · intro hm
    simp [detect_ball, hsel, hm]

/-- C4 witness: the concrete oracle's contour has `m00 = 2`, giving the
truncated centroid `(5, 2)` and radius 9. -/
theorem detect_ball_centroid_and_radius_witness :
    ((testOracle.moments testContour).1 ≠ 0 →
      detect_ball testOracle testFrame =
        (some (pyInt ((testOracle.moments testContour).2.1 /
                (testOracle.moments testContour).1),
               pyInt ((testOracle.moments testContour).2.2 /
                (testOracle.moments testContour).1)),
         (testOracle.minEnclosingCircle testContour).2,
         cleanMask testOracle testFrame)) ∧
    ((testOracle.moments testContour).1 = 0 →
      (detect_ball testOracle testFrame).1 = none ∧
        (detect_ball testOracle testFrame).2.1 = 0) :=
  detect_ball_centroid_and_radius testOracle testFrame testContour (by
    norm_num [selectBest, stepSel, testOracle, testContour, mathPi])

/-- C9: under the guarantee that the library's minimal enclosing circle
radius is never negative, the radius returned by `detect_ball` is strictly
positive exactly when a center is returned: qualifying contours have
nonzero radius by construction, and every no-detection outcome reports
radius exactly 0. -/
theorem detect_ball_radius_pos_iff_detected (o : Oracle) (f : FrameImg)
    (hr : ∀ c : Contour, 0 ≤ (o.minEnclosingCircle c).2) :
    0 < (detect_ball o f).2.1 ↔ (detect_ball o f).1 ≠ none := by
  rcases hsel : selectBest o (o.findContours (cleanMask o f)) with _ | b
  · simp [detect_ball, hsel]
  · obtain ⟨_, hq, _⟩ := selectBest_spec o _ b hsel
    have hrad : 0 < (o.minEnclosingCircle b).2 :=
      lt_of_le_of_ne (hr b) (Ne.symm hq.2.1)
    rcases eq_or_ne (o.moments b).1 0 with hm | hm
    · simp [detect_ball, hsel, hm]
    · simp [detect_ball, hsel, hm, hrad]

/-- C9 witness: the concrete oracle detects a ball, with radius 9 > 0. -/
theorem detect_ball_radius_pos_iff_detected_witness :
    0 < (detect_ball testOracle testFrame).2.1 ↔
      (detect_ball testOracle testFrame).1 ≠ none :=
  detect_ball_radius_pos_iff_detected testOracle testFrame
    (by intro c; norm_num [testOracle])

/-- C10: a processed (non-skipped) frame pushes one entry into each
trajectory buffer — the detected center into the original-space buffer and
its transform into the rectified-space buffer — the pushed rectified entry
is absent exactly when the pushed original entry is absent, and the two
buffers keep equal lengths. -/
theorem trajectory_buffers_stay_in_sync (o : Oracle) (M : List (List ℚ))
    (fs : FrameImg) (st : TrackState)
    (hcap : st.pts_original.cap = st.pts_warped.cap)
    (hlen : st.pts_original.data.length = st.pts_warped.data.length) :
    ∃ res : FrameResult,
      processFrame o M (some fs) st =
        (⟨appendleft st.pts_original res.center,
          appendleft st.pts_warped res.center_warped⟩, some res) ∧
      (res.center_warped = none ↔ res.center = none) ∧
      (processFrame o M (some fs) st).1.pts_original.data.length =
        (processFrame o M (some fs) st).1.pts_warped.data.length := by
  refine ⟨⟨(detect_ball o fs).1,
      (match (detect_ball o fs).1 with
        | some c => transform_point M (some c)
        | none => none),
      (detect_ball o fs).2.1, (detect_ball o fs).2.2⟩, rfl, ?_, ?_⟩
  · rcases hc : (detect_ball o fs).1 with _ | c
    · simp [hc]
    · simp [hc, transform_point]
  · simp only [processFrame]
    simp [appendleft, List.length_take, hcap, hlen]

/-- C10 witness: the concrete oracle on fresh capacity-3 buffers. -/
theorem trajectory_buffers_stay_in_sync_witness :
    ∃ res : FrameResult,
      processFrame testOracle mapperM (some testFrame)
          ⟨emptyDeque (Option (ℤ × ℤ)) 3, emptyDeque (Option (ℤ × ℤ)) 3⟩ =
        (⟨appendleft (emptyDeque (Option (ℤ × ℤ)) 3) res.center,
          appendleft (emptyDeque (Option (ℤ × ℤ)) 3) res.center_warped⟩, some res) ∧
      (res.center_warped = none ↔ res.center = none) ∧
      (processFrame testOracle mapperM (some testFrame)
          ⟨emptyDeque (Option (ℤ × ℤ)) 3,
            emptyDeque (Option (ℤ × ℤ)) 3⟩).1.pts_original.data.length =
        (processFrame testOracle mapperM (some testFrame)
          ⟨emptyDeque (Option (ℤ × ℤ)) 3,
            emptyDeque (Option (ℤ × ℤ)) 3⟩).1.pts_warped.data.length :=
  trajectory_buffers_stay_in_sync testOracle mapperM testFrame
    ⟨emptyDeque (Option (ℤ × ℤ)) 3, emptyDeque (Option (ℤ × ℤ)) 3⟩ rfl rfl
